import Mathlib

/-!
Verification of the task state management and view-filtering core of the
to-do application (source: src/todo_frontend/src/App.js).

The JavaScript source is shallowly embedded: the task collection is a
`List Task`, each handler (`addTask`, `toggleTask`, `deleteTask`,
`editTask`, `clearCompleted`) becomes a pure function from the previous
collection to an `OpResult` carrying the next collection, the announcement
messages emitted through the aria-live region, and whether `setTasks` was
invoked (invoking `setTasks` is what re-runs the persistence effect, i.e.
triggers a save to localStorage).  The hash-based filter synchronisation
(`parseHash`, `setFilterAndHash`, the `hashchange` listener) is embedded as
pure functions on a record of the filter state and the location hash.
-/

namespace TodoApp

/-- Whitespace trimming on character lists: drop leading whitespace, then
drop trailing whitespace (via reverse).  This models the JavaScript
`String.prototype.trim` used by the handlers. -/
def trimChars (l : List Char) : List Char :=
  ((l.dropWhile Char.isWhitespace).reverse.dropWhile Char.isWhitespace).reverse

/-- Model of the JavaScript `(s).trim()`. -/
def jsTrim (s : String) : String :=
  String.mk (trimChars s.data)

/-- A task as stored in the collection: `{ id, text, completed }`
(App.js line 141). -/
structure Task where
  id : String
  text : String
  completed : Bool
deriving DecidableEq

/-- Model of `uid()` (App.js line 33):
`` `${Date.now()}-${Math.random().toString(36).slice(2, 9)}` ``.
`Date.now()` and the random suffix are environment inputs, passed in as
arguments `now` and `rand`. -/
def uid (now : Nat) (rand : String) : String :=
  toString now ++ "-" ++ rand

/-- The observable outcome of one handler invocation: the next task
collection, the announcements sent to the aria-live region, and whether
`setTasks` was called (each handler that calls `setTasks` builds a fresh
array, so React re-renders and the `useEffect` on `[tasks]` persists the
collection; `saved = false` means the persistence effect is not re-run). -/
structure OpResult where
  tasks : List Task
  announcements : List String
  saved : Bool
deriving DecidableEq

/-- Model of `addTask` (App.js lines 133-147): trim the input; if empty,
announce the rejection and do not touch the collection; otherwise prepend
a fresh task and announce the addition. -/
def addTask (now : Nat) (rand : String) (text : String) (prev : List Task) : OpResult :=
  let trimmed := jsTrim text
  if trimmed = "" then
    { tasks := prev, announcements := ["Cannot add an empty task"], saved := false }
  else
    { tasks := { id := uid now rand, text := trimmed, completed := false } :: prev,
      announcements := ["Added task: " ++ trimmed],
      saved := true }

/-- Model of `toggleTask` (App.js lines 149-154): map over the collection
flipping `completed` on the task whose id matches. -/
def toggleTask (id : String) (prev : List Task) : OpResult :=
  { tasks := prev.map (fun t => if t.id = id then { t with completed := !t.completed } else t),
    announcements := [],
    saved := true }

/-- Model of `deleteTask` (App.js lines 156-165): keep the tasks whose id
differs; announce with the deleted text when the task was found and its
text is truthy (a non-empty string). -/
def deleteTask (id : String) (prev : List Task) : OpResult :=
  let task := prev.find? (fun t => t.id = id)
  let next := prev.filter (fun t => t.id ≠ id)
  let msg :=
    match task with
    | some t => if t.text = "" then "Deleted task" else "Deleted task: " ++ t.text
    | none => "Deleted task"
  { tasks := next, announcements := [msg], saved := true }

/-- Model of `editTask` (App.js lines 167-183): trim the input; if empty,
announce the cancellation and do not touch the collection; otherwise
rewrite the text of the task whose id matches, announcing only when the
text actually changed. -/
def editTask (id : String) (newText : String) (prev : List Task) : OpResult :=
  let trimmed := jsTrim newText
  if trimmed = "" then
    { tasks := prev, announcements := ["Edit cancelled. Empty value not saved."], saved := false }
  else
    let prevTask := prev.find? (fun t => t.id = id)
    let next := prev.map (fun t => if t.id = id then { t with text := trimmed } else t)
    let ann :=
      match prevTask with
      | some t => if t.text ≠ trimmed then ["Edited task: " ++ trimmed] else []
      | none => []
    { tasks := next, announcements := ann, saved := true }

/-- Model of `clearCompleted` (App.js lines 185-193): drop every completed
task and announce how many were removed, pluralising with a trailing s
exactly when more than one was removed. -/
def clearCompleted (prev : List Task) : OpResult :=
  let removed := (prev.filter (fun t => t.completed)).length
  let next := prev.filter (fun t => !t.completed)
  let msg :=
    if removed > 0 then
      "Cleared " ++ toString removed ++ " completed task" ++ (if removed > 1 then "s" else "")
    else
      "No completed tasks to clear"
  { tasks := next, announcements := [msg], saved := true }

/-- The filter values (App.js line 59 comment: filter is one of the
strings all, active, completed). -/
inductive Filter where
  | all
  | active
  | completed
deriving DecidableEq

/-- The string the source uses for each filter value. -/
def filterName : Filter → String
  | Filter.all => "all"
  | Filter.active => "active"
  | Filter.completed => "completed"

/-- Model of `toLowerCase()` as used by `parseHash` (App.js line 64):
lower-case every character. -/
def jsToLower (s : String) : String :=
  String.mk (s.data.map Char.toLower)

/-- Model of the regex replace in `parseHash` (App.js line 66):
`raw.replace(/^#\/?/, '')` removes a leading hash mark together with an
optional following slash. -/
def stripMarkChars : List Char → List Char
  | '#' :: '/' :: rest => rest
  | '#' :: rest => rest
  | l => l

/-- String wrapper for `stripMarkChars`. -/
def stripHashMark (s : String) : String :=
  String.mk (stripMarkChars s.data)

/-- Model of `parseHash` (App.js lines 63-70): lower-case the hash, strip
the leading marker, keep a recognised value, default to all.  The source
keeps the string `cleaned` when it is one of active, completed, all and
otherwise uses the string all; both the recognised value all and the
default map to `Filter.all` here. -/
def parseHash (hash : String) : Filter :=
  if stripHashMark (jsToLower hash) = "active" then Filter.active
  else if stripHashMark (jsToLower hash) = "completed" then Filter.completed
  else Filter.all

/-- The two pieces of state the filter synchronisation couples: the React
filter state and the location hash. -/
structure FilterSync where
  filter : Filter
  hash : String
deriving DecidableEq

/-- Model of `setFilterAndHash` (App.js lines 93-101): set the filter
state, then write `#/` followed by the value into the location hash unless
the hash is already exactly that string. -/
def setFilterAndHash (val : Filter) (s : FilterSync) : FilterSync :=
  { filter := val,
    hash := if s.hash = "#/" ++ filterName val then s.hash else "#/" ++ filterName val }

/-- Model of the `hashchange` listener `onHashChange` (App.js lines
80-84): re-parse the hash and adopt the result as the filter state (the
source skips the state update when the value is unchanged, which yields
the same resulting state). -/
def onHashChange (s : FilterSync) : FilterSync :=
  { s with filter := parseHash s.hash }

/-- Model of the `filteredTasks` memo (App.js lines 207-213): the list
shown for the current filter. -/
def filteredTasks (tasks : List Task) (filter : Filter) : List Task :=
  match filter with
  | Filter.active => tasks.filter (fun t => !t.completed)
  | Filter.completed => tasks.filter (fun t => t.completed)
  | Filter.all => tasks

/-- An abstract user-or-environment step against the task collection: an
add carries the environment inputs `now` and `rand` that `uid()` would
consume, the remaining steps carry the arguments of the handlers. -/
inductive Op where
  | add (now : Nat) (rand : String) (text : String)
  | toggle (id : String)
  | delete (id : String)
  | edit (id : String) (text : String)
  | clear
deriving DecidableEq

/-- The collection produced by one step. -/
def applyOp (op : Op) (tasks : List Task) : List Task :=
  match op with
  | Op.add now rand text => (addTask now rand text tasks).tasks
  | Op.toggle id => (toggleTask id tasks).tasks
  | Op.delete id => (deleteTask id tasks).tasks
  | Op.edit id text => (editTask id text tasks).tasks
  | Op.clear => (clearCompleted tasks).tasks

/-- The collection produced by a sequence of steps, applied left to
right. -/
def applyOps (ops : List Op) (tasks : List Task) : List Task :=
  List.foldl (fun ts op => applyOp op ts) tasks ops

/-- The ids that `uid()` would hand to the add steps of a sequence. -/
def addIds (ops : List Op) : List String :=
  ops.filterMap (fun op =>
    match op with
    | Op.add now rand _ => some (uid now rand)
    | _ => none)

/-! Section General lemmas about trimming -/

/-- Dropping a prefix of elements satisfying `p` twice is the same as
doing it once. -/
theorem dropWhile_dropWhile_same {α : Type} (p : α → Bool) (l : List α) :
    (l.dropWhile p).dropWhile p = l.dropWhile p := by
  induction l with
  | nil => simp
  | cons a l ih =>
    by_cases h : p a
    · simp [List.dropWhile_cons, h, ih]
    · simp [List.dropWhile_cons, h]

/-- The head of a `dropWhile p` result does not satisfy `p`. -/
theorem head_false_of_dropWhile {α : Type} (p : α → Bool) (l : List α) :
    ∀ x xs, l.dropWhile p = x :: xs → p x = false := by
  induction l with
  | nil => intro x xs h; simp at h
  | cons a l ih =>
    intro x xs h
    by_cases ha : p a
    · rw [List.dropWhile_cons_of_pos ha] at h
      exact ih x xs h
    · rw [List.dropWhile_cons_of_neg ha] at h
      cases h
      exact Bool.eq_false_iff.mpr ha

/-- A prefix of a `dropWhile p` result is unchanged by `dropWhile p`. -/
theorem dropWhile_eq_self_of_front {α : Type} (p : α → Bool) {l b a : List α}
    (hpre : b <+: a) (ha : a = l.dropWhile p) : b.dropWhile p = b := by
  cases b with
  | nil => simp
  | cons x b1 =>
    obtain ⟨t, ht⟩ := hpre
    have hx : p x = false := by
      apply head_false_of_dropWhile p l x (b1 ++ t)
      rw [← ha, ← ht]
      simp
    rw [List.dropWhile_cons_of_neg (by simp [hx])]

/-- Trimming is idempotent on character lists. -/
theorem trimChars_idem (l : List Char) : trimChars (trimChars l) = trimChars l := by
  unfold trimChars
  set ws := Char.isWhitespace with hws
  set a := l.dropWhile ws with hadef
  set r := a.reverse.dropWhile ws with hrdef
  have hpre : r.reverse <+: a := by
    obtain ⟨s, hs⟩ : r <:+ a.reverse := List.dropWhile_suffix ws
    exact ⟨s.reverse, by rw [← List.reverse_append, hs, List.reverse_reverse]⟩
  have hstep : r.reverse.dropWhile ws = r.reverse :=
    dropWhile_eq_self_of_front ws hpre hadef
  rw [hstep, List.reverse_reverse, dropWhile_dropWhile_same]

/-- Trimming is idempotent: the model of `(s).trim()` fixes its own
output. -/
theorem jsTrim_idem (s : String) : jsTrim (jsTrim s) = jsTrim s := by
  unfold jsTrim
  rw [show (String.mk (trimChars s.data)).data = trimChars s.data from rfl, trimChars_idem]

/-! Section C10: parseHash -/

/-- The canonical encoding of each filter value parses back to itself. -/
theorem parseHash_canonical (f : Filter) : parseHash ("#/" ++ filterName f) = f := by
  cases f <;> decide

/-- Claim C10: `parseHash` is a pure, total function from fragment strings
to the three filter values: it strips the leading hash marker,
lower-cases, maps the recognised values (case-insensitively) to
themselves, and maps every unrecognised or absent value to `all`; in
particular `parseHash "#/completed" = completed`,
`parseHash "#/bogus" = all`, and `parseHash "" = all`. -/
theorem parse_hash_total_default_all :
    parseHash "#/completed" = Filter.completed ∧
    parseHash "#/bogus" = Filter.all ∧
    parseHash "" = Filter.all ∧
    parseHash "#/COMPLETED" = Filter.completed ∧
    parseHash "#/Active" = Filter.active ∧
    parseHash "#ALL" = Filter.all ∧
    (∀ f : Filter, parseHash ("#/" ++ filterName f) = f) ∧
    (∀ s : String,
      stripHashMark (jsToLower s) ≠ "all" →
      stripHashMark (jsToLower s) ≠ "active" →
      stripHashMark (jsToLower s) ≠ "completed" →
      parseHash s = Filter.all) := by
  refine ⟨by decide, by decide, by decide, by decide, by decide, by decide, ?_, ?_⟩
  · exact parseHash_canonical
  · intro s _h1 h2 h3
    unfold parseHash
    rw [if_neg h2, if_neg h3]

/-- Concrete instantiation of the hypotheses of
`parse_hash_total_default_all`: the canonical encodings map to
themselves, and an unrecognised fragment maps to `all`. -/
theorem parse_hash_total_default_all_witness :
    parseHash ("#/" ++ filterName Filter.active) = Filter.active ∧
    parseHash "#/nonsense" = Filter.all := by
  refine ⟨parse_hash_total_default_all.2.2.2.2.2.2.1 Filter.active, ?_⟩
  exact parse_hash_total_default_all.2.2.2.2.2.2.2 "#/nonsense"
    (by decide) (by decide) (by decide)

/-! Section C3: filter and hash stay in sync -/

/-- Claim C3: after any `setFilterAndHash` call and after any
`onHashChange` call, the location hash and the internal filter state
encode the same filter value (the hash parses to exactly the stored
filter). -/
theorem filter_hash_encode_same :
    ∀ (s : FilterSync) (val : Filter),
      parseHash (setFilterAndHash val s).hash = (setFilterAndHash val s).filter ∧
      parseHash (onHashChange s).hash = (onHashChange s).filter := by
  intro s val
  constructor
  · show parseHash (if s.hash = "#/" ++ filterName val then s.hash else "#/" ++ filterName val) = val
    by_cases h : s.hash = "#/" ++ filterName val
    · rw [if_pos h, h]
      exact parseHash_canonical val
    · rw [if_neg h]
      exact parseHash_canonical val
  · rfl

/-! Section C5: empty inputs are rejected without mutation or save -/

/-- Claim C5: for every input whose trim is empty, `addTask` leaves the
collection unchanged, announces the rejection message, and does not invoke
`setTasks` (so the persistence effect is not re-run); likewise `editTask`
with an empty-trimming input leaves the collection unchanged, announces
the cancellation message, and does not invoke `setTasks`. -/
theorem empty_input_rejected_no_save :
    ∀ (now : Nat) (rand id text : String) (prev : List Task),
      jsTrim text = "" →
      addTask now rand text prev =
        { tasks := prev, announcements := ["Cannot add an empty task"], saved := false } ∧
      editTask id text prev =
        { tasks := prev,
          announcements := ["Edit cancelled. Empty value not saved."],
          saved := false } := by
  intro now rand id text prev h
  constructor
  · simp [addTask, h]
  · simp [editTask, h]

/-- Concrete instantiation of `empty_input_rejected_no_save` on the
whitespace-only input from the spec example. -/
theorem empty_input_rejected_no_save_witness :
    addTask 7 "zzz" "   " [] =
      { tasks := [], announcements := ["Cannot add an empty task"], saved := false } ∧
    editTask "3-q" "   " [] =
      { tasks := [],
        announcements := ["Edit cancelled. Empty value not saved."],
        saved := false } :=
  empty_input_rejected_no_save 7 "zzz" "3-q" "   " [] (by decide)

/-! Section C8: the derived filtered view -/

/-- Claim C8: the filtered view for `all` is the full sequence unchanged,
for `active` exactly the tasks with `completed = false`, for `completed`
exactly the tasks with `completed = true`, and in each case the returned
tasks appear in their source order (the result is a sublist of the
source). -/
theorem derive_filter_projection :
    ∀ (tasks : List Task),
      filteredTasks tasks Filter.all = tasks ∧
      (∀ f : Filter, List.Sublist (filteredTasks tasks f) tasks) ∧
      (∀ t : Task, t ∈ filteredTasks tasks Filter.active ↔ t ∈ tasks ∧ t.completed = false) ∧
      (∀ t : Task, t ∈ filteredTasks tasks Filter.completed ↔ t ∈ tasks ∧ t.completed = true) := by
  intro tasks
  refine ⟨rfl, ?_, ?_, ?_⟩
  · intro f
    cases f with
    | all => exact List.Sublist.refl tasks
    | active => exact List.filter_sublist tasks
    | completed => exact List.filter_sublist tasks
  · intro t
    simp [filteredTasks]
  · intro t
    simp [filteredTasks]

/-- Concrete instantiation of `derive_filter_projection` on a mixed
collection. -/
theorem derive_filter_projection_witness :
    filteredTasks
      [{ id := "1-a", text := "x", completed := true },
       { id := "2-b", text := "y", completed := false }] Filter.all =
      [{ id := "1-a", text := "x", completed := true },
       { id := "2-b", text := "y", completed := false }] ∧
    ({ id := "2-b", text := "y", completed := false } : Task) ∈
      filteredTasks
        [{ id := "1-a", text := "x", completed := true },
         { id := "2-b", text := "y", completed := false }] Filter.active :=
  ⟨(derive_filter_projection _).1,
    ((derive_filter_projection _).2.2.1 _).mpr (by decide)⟩

/-! Section C9: toggle -/

/-- Mapping a function that fixes every member of a list leaves the list
unchanged. -/
theorem map_eq_self_of_mem {α : Type} {f : α → α} {l : List α} (h : ∀ a ∈ l, f a = a) :
    l.map f = l :=
  (List.map_congr_left h).trans (List.map_id' l)

/-- Claim C9: `toggleTask id` flips the `completed` field of the task at
every position whose id matches, leaving id, text, position and all other
tasks unchanged; it is a no-op when no task has the id; and applying it
twice returns the collection to its original state. -/
theorem toggle_flip_involution :
    ∀ (id : String) (prev : List Task),
      (toggleTask id (toggleTask id prev).tasks).tasks = prev ∧
      (id ∉ prev.map Task.id → (toggleTask id prev).tasks = prev) ∧
      (∀ i : Nat, ((toggleTask id prev).tasks)[i]? =
        (prev[i]?).map
          (fun t => if t.id = id then { t with completed := !t.completed } else t)) := by
  intro id prev
  refine ⟨?_, ?_, ?_⟩
  · show (List.map _ (List.map _ prev)) = prev
    rw [List.map_map]
    apply List.map_id''
    intro t
    cases t with
    | mk i x c =>
      by_cases h : i = id
      · simp [h]
      · simp [h]
  · intro hid
    apply map_eq_self_of_mem
    intro t ht
    have hne : t.id ≠ id := fun he => hid (he ▸ List.mem_map_of_mem Task.id ht)
    simp [hne]
  · intro i
    simp [toggleTask]

/-- Concrete instantiation of `toggle_flip_involution`: toggling an absent
id on a one-task collection is a no-op. -/
theorem toggle_flip_involution_witness :
    (toggleTask "9-z" [{ id := "1-a", text := "x", completed := false }]).tasks =
      [{ id := "1-a", text := "x", completed := false }] :=
  (toggle_flip_involution "9-z" _).2.1 (by decide)

/-! Section C7: clearCompleted -/

/-- Claim C7: `clearCompleted` removes exactly the completed tasks and
keeps the active ones in their original relative order; it announces
"Cleared N completed task(s)" with a trailing s exactly for N greater
than one, and "No completed tasks to clear" with no mutation when no
task is completed. -/
theorem clear_completed_behavior :
    ∀ (prev : List Task),
      List.Sublist (clearCompleted prev).tasks prev ∧
      (∀ t : Task, t ∈ (clearCompleted prev).tasks ↔ t ∈ prev ∧ t.completed = false) ∧
      ((prev.filter (fun t => t.completed)).length = 0 →
        (clearCompleted prev).tasks = prev ∧
        (clearCompleted prev).announcements = ["No completed tasks to clear"]) ∧
      ((prev.filter (fun t => t.completed)).length = 1 →
        (clearCompleted prev).announcements = ["Cleared 1 completed task"]) ∧
      (1 < (prev.filter (fun t => t.completed)).length →
        (clearCompleted prev).announcements =
          ["Cleared " ++ toString (prev.filter (fun t => t.completed)).length ++
            " completed tasks"]) := by
  intro prev
  refine ⟨List.filter_sublist prev, ?_, ?_, ?_, ?_⟩
  · intro t
    simp [clearCompleted]
  · intro h
    have hnil : prev.filter (fun t => t.completed) = [] := List.length_eq_zero.mp h
    have hall : ∀ t ∈ prev, ¬ (t.completed = true) := List.filter_eq_nil_iff.mp hnil
    constructor
    · show prev.filter (fun t => !t.completed) = prev
      apply List.filter_eq_self.mpr
      intro t ht
      simp [hall t ht]
    · show [if (prev.filter (fun t => t.completed)).length > 0 then _ else _] = _
      rw [h]
      decide
  · intro h
    show [if (prev.filter (fun t => t.completed)).length > 0 then
      "Cleared " ++ toString (prev.filter (fun t => t.completed)).length ++
        " completed task" ++
        (if (prev.filter (fun t => t.completed)).length > 1 then "s" else "") else _] = _
    rw [h]
    decide
  · intro h
    show [if (prev.filter (fun t => t.completed)).length > 0 then
      "Cleared " ++ toString (prev.filter (fun t => t.completed)).length ++
        " completed task" ++
        (if (prev.filter (fun t => t.completed)).length > 1 then "s" else "") else _] = _
    rw [if_pos (by omega), if_pos h]
    rw [String.append_assoc]
    congr 1

/-- Concrete instantiation of `clear_completed_behavior` on the spec
example: three completed and two active tasks. -/
theorem clear_completed_behavior_witness :
    (clearCompleted
      [{ id := "1-a", text := "a", completed := true },
       { id := "2-b", text := "b", completed := false },
       { id := "3-c", text := "c", completed := true },
       { id := "4-d", text := "d", completed := false },
       { id := "5-e", text := "e", completed := true }]).tasks =
      [{ id := "2-b", text := "b", completed := false },
       { id := "4-d", text := "d", completed := false }] ∧
    (clearCompleted
      [{ id := "1-a", text := "a", completed := true },
       { id := "2-b", text := "b", completed := false },
       { id := "3-c", text := "c", completed := true },
       { id := "4-d", text := "d", completed := false },
       { id := "5-e", text := "e", completed := true }]).announcements =
      ["Cleared 3 completed tasks"] := by
  constructor
  · decide
  · have h := (clear_completed_behavior
      [{ id := "1-a", text := "a", completed := true },
       { id := "2-b", text := "b", completed := false },
       { id := "3-c", text := "c", completed := true },
       { id := "4-d", text := "d", completed := false },
       { id := "5-e", text := "e", completed := true }]).2.2.2.2 (by decide)
    rw [h]
    decide

/-! Section C6: editing with the current text is a true no-op -/

/-- Two members of a collection with no duplicate ids and the same id are
the same task. -/
theorem eq_of_mem_of_id_eq {l : List Task} (hnd : (l.map Task.id).Nodup)
    {u v : Task} (hu : u ∈ l) (hv : v ∈ l) (he : u.id = v.id) : u = v :=
  List.inj_on_of_nodup_map hnd hu hv he

/-- Claim C6: for a collection with unique ids, calling `editTask` on a
present id with an input trimming to that task's current text neither
changes the collection contents nor emits any announcement. -/
theorem edit_same_text_noop :
    ∀ (id raw : String) (prev : List Task) (t : Task),
      (prev.map Task.id).Nodup → t ∈ prev → t.id = id → t.text ≠ "" →
      jsTrim raw = t.text →
      (editTask id raw prev).tasks = prev ∧
      (editTask id raw prev).announcements = [] := by
  intro id raw prev t hnd hmem hid htext htrim
  have hne : ¬ (jsTrim raw = "") := by
    rw [htrim]; exact htext
  have htasks : prev.map (fun u => if u.id = id then { u with text := jsTrim raw } else u)
      = prev := by
    apply map_eq_self_of_mem
    intro u hu
    by_cases h : u.id = id
    · have hut : u = t := eq_of_mem_of_id_eq hnd hu hmem (h.trans hid.symm)
      subst hut
      rw [if_pos h, htrim]
    · rw [if_neg h]
  constructor
  · show (if jsTrim raw = "" then _ else _ : OpResult).tasks = prev
    rw [if_neg hne]
    exact htasks
  · show (if jsTrim raw = "" then _ else _ : OpResult).announcements = []
    rw [if_neg hne]
    rcases hf : prev.find? (fun u => u.id = id) with _ | u
    · simp [hf]
    · have humem : u ∈ prev := List.mem_of_find?_eq_some hf
      have huid : u.id = id := by
        have := List.find?_some hf
        simpa using this
      have hut : u = t := eq_of_mem_of_id_eq hnd humem hmem (huid.trans hid.symm)
      subst hut
      simp [hf, htrim]

/-- Concrete instantiation of `edit_same_text_noop`: editing a task with
an input that trims to its current text. -/
theorem edit_same_text_noop_witness :
    (editTask "1-a" "  same text  "
      [{ id := "1-a", text := "same text", completed := false }]).tasks =
      [{ id := "1-a", text := "same text", completed := false }] ∧
    (editTask "1-a" "  same text  "
      [{ id := "1-a", text := "same text", completed := false }]).announcements = [] :=
  edit_same_text_noop "1-a" "  same text  "
    [{ id := "1-a", text := "same text", completed := false }]
    { id := "1-a", text := "same text", completed := false }
    (by decide) (by decide) (by decide) (by decide) (by decide)

/-! Section C4: newest-first order -/

/-- Toggling preserves the sequence of ids (hence positions). -/
theorem toggleTask_map_id (id : String) (prev : List Task) :
    ((toggleTask id prev).tasks).map Task.id = prev.map Task.id := by
  show (prev.map _).map Task.id = prev.map Task.id
  rw [List.map_map]
  apply List.map_congr_left
  intro t _
  by_cases h : t.id = id
  · simp [h]
  · simp [h]

/-- Editing preserves the sequence of ids (hence positions). -/
theorem editTask_map_id (id text : String) (prev : List Task) :
    ((editTask id text prev).tasks).map Task.id = prev.map Task.id := by
  by_cases h : jsTrim text = ""
  · simp [editTask, h]
  · show (if jsTrim text = "" then _ else _ : OpResult).tasks.map Task.id = _
    rw [if_neg h]
    show (prev.map _).map Task.id = prev.map Task.id
    rw [List.map_map]
    apply List.map_congr_left
    intro t _
    by_cases ht : t.id = id
    · simp [ht]
    · simp [ht]

/-- Claim C4: the collection order is newest-first insertion order: a
non-rejected add places the new task at the head and keeps the rest in
order; toggle and edit keep the id sequence (hence every position)
unchanged; delete on a unique-id collection removes exactly the matching
element and keeps the rest in order; and adding "Buy milk" then
"Walk dog" to the empty collection yields the order
[Walk dog, Buy milk]. -/
theorem collection_order_newest_first :
    (∀ (now : Nat) (rand text : String) (prev : List Task), jsTrim text ≠ "" →
      (addTask now rand text prev).tasks =
        { id := uid now rand, text := jsTrim text, completed := false } :: prev) ∧
    (∀ (id : String) (prev : List Task),
      ((toggleTask id prev).tasks).map Task.id = prev.map Task.id) ∧
    (∀ (id text : String) (prev : List Task),
      ((editTask id text prev).tasks).map Task.id = prev.map Task.id) ∧
    (∀ (id : String) (prev : List Task) (t : Task),
      (prev.map Task.id).Nodup → t ∈ prev → t.id = id →
      ∃ l1 l2, prev = l1 ++ t :: l2 ∧ (deleteTask id prev).tasks = l1 ++ l2) ∧
    ((applyOps [Op.add 1 "a" "Buy milk", Op.add 2 "b" "Walk dog"] []).map Task.text =
      ["Walk dog", "Buy milk"]) := by
  refine ⟨?_, toggleTask_map_id, editTask_map_id, ?_, by decide⟩
  · intro now rand text prev h
    simp [addTask, h]
  · intro id prev t hnd hmem hid
    obtain ⟨l1, l2, rfl⟩ := List.append_of_mem hmem
    refine ⟨l1, l2, rfl, ?_⟩
    have hnd1 : t.id ∉ (l1.map Task.id) := by
      rw [List.map_append, List.map_cons] at hnd
      have := (List.nodup_append.mp hnd).2.2
      intro hin
      exact this hin (List.mem_cons_self _ _)
    have hnd2 : t.id ∉ (l2.map Task.id) := by
      rw [List.map_append, List.map_cons] at hnd
      have := ((List.nodup_append.mp hnd).2.1)
      exact (List.nodup_cons.mp this).1
    show (l1 ++ t :: l2).filter (fun u => u.id ≠ id) = l1 ++ l2
    rw [List.filter_append, List.filter_cons]
    have hteq : (decide (t.id ≠ id)) = false := by simp [hid]
    rw [hteq]
    have h1 : l1.filter (fun u => u.id ≠ id) = l1 := by
      apply List.filter_eq_self.mpr
      intro u hu
      simp only [decide_eq_true_eq]
      intro he
      exact hnd1 (by rw [hid, ← he]; exact List.mem_map_of_mem Task.id hu)
    have h2 : l2.filter (fun u => u.id ≠ id) = l2 := by
      apply List.filter_eq_self.mpr
      intro u hu
      simp only [decide_eq_true_eq]
      intro he
      exact hnd2 (by rw [hid, ← he]; exact List.mem_map_of_mem Task.id hu)
    rw [h1, h2]
    simp

/-- Concrete instantiation of `collection_order_newest_first`: deleting
the middle task of a three-task collection removes exactly that element. -/
theorem collection_order_newest_first_witness :
    ∃ l1 l2,
      [{ id := "1-a", text := "a", completed := false },
       { id := "2-b", text := "b", completed := true },
       { id := "3-c", text := "c", completed := false }] =
        l1 ++ ({ id := "2-b", text := "b", completed := true } : Task) :: l2 ∧
      (deleteTask "2-b"
        [{ id := "1-a", text := "a", completed := false },
         { id := "2-b", text := "b", completed := true },
         { id := "3-c", text := "c", completed := false }]).tasks = l1 ++ l2 :=
  collection_order_newest_first.2.2.2.1 "2-b"
    [{ id := "1-a", text := "a", completed := false },
     { id := "2-b", text := "b", completed := true },
     { id := "3-c", text := "c", completed := false }]
    { id := "2-b", text := "b", completed := true }
    (by decide) (by decide) (by decide)

/-! Section C1: unique ids and trimmed non-empty texts are invariant -/

/-- Claim C1: for every sequence of add/toggle/edit/delete (and clear)
steps applied to a collection whose tasks already satisfy the invariant,
provided the ids `uid()` hands to the add steps are pairwise distinct and
distinct from the ids already present (the generator's contract), every
task in the resulting collection has an id distinct from every other
task's id, and a text that is non-empty and equal to its own trim. -/
theorem tasks_unique_ids_and_trimmed_text :
    ∀ (ops : List Op) (init : List Task),
      ((init.map Task.id) ++ addIds ops).Nodup →
      (∀ t ∈ init, t.text ≠ "" ∧ jsTrim t.text = t.text) →
      ((applyOps ops init).map Task.id).Nodup ∧
      (∀ t ∈ applyOps ops init, t.text ≠ "" ∧ jsTrim t.text = t.text) := by
  intro ops
  induction ops with
  | nil =>
    intro init hnd hts
    rw [show applyOps [] init = init from rfl]
    refine ⟨?_, hts⟩
    rw [show addIds ([] : List Op) = [] from rfl, List.append_nil] at hnd
    exact hnd
  | cons op rest ih =>
    intro init hnd hts
    rw [show applyOps (op :: rest) init = applyOps rest (applyOp op init) from rfl]
    cases op with
    | add now rand text =>
      have he : addIds (Op.add now rand text :: rest) = uid now rand :: addIds rest := rfl
      rw [he] at hnd
      by_cases h : jsTrim text = ""
      · have happ : applyOp (Op.add now rand text) init = init := by
          simp [applyOp, addTask, h]
        rw [happ]
        refine ih init ?_ hts
        exact (List.Sublist.append_left
          (List.sublist_cons_self (uid now rand) (addIds rest)) (init.map Task.id)).nodup hnd
      · have happ : applyOp (Op.add now rand text) init =
            { id := uid now rand, text := jsTrim text, completed := false } :: init := by
          simp [applyOp, addTask, h]
        rw [happ]
        refine ih _ ?_ ?_
        · rw [List.map_cons, List.cons_append]
          exact List.perm_middle.nodup hnd
        · intro t htm
          rcases List.mem_cons.mp htm with rfl | hmem
          · exact ⟨h, jsTrim_idem text⟩
          · exact hts t hmem
    | toggle id =>
      refine ih _ ?_ ?_
      · show (((toggleTask id init).tasks).map Task.id ++ addIds rest).Nodup
        rw [toggleTask_map_id]
        exact hnd
      · intro t htm
        have htm2 : t ∈ init.map
            (fun u => if u.id = id then { u with completed := !u.completed } else u) := htm
        rcases List.mem_map.mp htm2 with ⟨u, hu, rfl⟩
        have htext : ((fun u : Task =>
            if u.id = id then { u with completed := !u.completed } else u) u).text = u.text := by
          by_cases hc : u.id = id
          · simp [hc]
          · simp [hc]
        rw [htext]
        exact hts u hu
    | delete id =>
      refine ih _ ?_ ?_
      · have hsub : List.Sublist (((deleteTask id init).tasks).map Task.id)
            (init.map Task.id) := by
          show List.Sublist ((init.filter _).map Task.id) (init.map Task.id)
          exact (List.filter_sublist init).map Task.id
        exact (List.Sublist.append_right hsub (addIds rest)).nodup hnd
      · intro t htm
        have htm2 : t ∈ init.filter (fun u => u.id ≠ id) := htm
        exact hts t (List.mem_filter.mp htm2).1
    | edit id text =>
      refine ih _ ?_ ?_
      · show (((editTask id text init).tasks).map Task.id ++ addIds rest).Nodup
        rw [editTask_map_id]
        exact hnd
      · intro t htm
        by_cases h : jsTrim text = ""
        · have happ : applyOp (Op.edit id text) init = init := by
            simp [applyOp, editTask, h]
          rw [happ] at htm
          exact hts t htm
        · have happ : applyOp (Op.edit id text) init =
              init.map (fun u => if u.id = id then { u with text := jsTrim text } else u) := by
            simp [applyOp, editTask, h]
          rw [happ] at htm
          rcases List.mem_map.mp htm with ⟨u, hu, rfl⟩
          by_cases hc : u.id = id
          · rw [if_pos hc]
            exact ⟨h, jsTrim_idem text⟩
          · rw [if_neg hc]
            exact hts u hu
    | clear =>
      refine ih _ ?_ ?_
      · have hsub : List.Sublist (((clearCompleted init).tasks).map Task.id)
            (init.map Task.id) := by
          show List.Sublist ((init.filter _).map Task.id) (init.map Task.id)
          exact (List.filter_sublist init).map Task.id
        exact (List.Sublist.append_right hsub (addIds rest)).nodup hnd
      · intro t htm
        have htm2 : t ∈ init.filter (fun u => !u.completed) := htm
        exact hts t (List.mem_filter.mp htm2).1

/-- Sample step sequence exercising every operation, starting from the
empty collection, with distinct generated ids. -/
def sampleOps : List Op :=
  [Op.add 1 "aa" "  Buy milk ", Op.add 2 "bb" "Walk dog", Op.toggle "1-aa",
   Op.edit "2-bb" "  Walk the dog ", Op.delete "1-aa", Op.add 3 "cc" "   ", Op.clear]

/-- Concrete instantiation of `tasks_unique_ids_and_trimmed_text` on
`sampleOps` from the empty collection. -/
theorem tasks_unique_ids_and_trimmed_text_witness :
    ((applyOps sampleOps []).map Task.id).Nodup ∧
    (∀ t ∈ applyOps sampleOps [], t.text ≠ "" ∧ jsTrim t.text = t.text) :=
  tasks_unique_ids_and_trimmed_text sampleOps [] (by decide) (by decide)

/-! ## C2: loading from durable storage

The startup initializer (App.js lines 47-57) reads the localStorage entry,
runs `JSON.parse` on a truthy value, returns the parsed value as the
initial collection, and falls back to the empty array when the entry is
absent or `JSON.parse` throws.  `JSON.parse` is a JavaScript builtin; it
is modelled below by a recursive-descent parser over the character list
with a fuel argument.  Model restrictions: numeric literals are modelled
as integers (fractional and exponent forms are rejected rather than
parsed as floating point), and unicode escape sequences in strings are
rejected. -/

/-- JSON values as produced by the modelled `JSON.parse`. -/
inductive Json where
  | null
  | bool (b : Bool)
  | num (n : Int)
  | str (s : String)
  | arr (elems : List Json)
  | obj (fields : List (String × Json))

/-- The opening brace character. -/
def lbrace : Char := Char.ofNat 123

/-- The closing brace character. -/
def rbrace : Char := Char.ofNat 125

/-- Drop leading JSON whitespace. -/
def skipWs : List Char → List Char
  | [] => []
  | c :: cs => if c = ' ' ∨ c = '\t' ∨ c = '\n' ∨ c = '\r' then skipWs cs else c :: cs

/-- Parse the remainder of a double-quoted string literal (the opening
quote already consumed), handling the common escape sequences. -/
def parseStrChars : List Char → Option (List Char × List Char)
  | [] => none
  | c :: cs =>
    if c = '"' then some ([], cs)
    else if c = '\\' then
      match cs with
      | [] => none
      | e :: cs2 =>
        let ec : Option Char :=
          if e = '"' then some '"'
          else if e = '\\' then some '\\'
          else if e = '/' then some '/'
          else if e = 'n' then some '\n'
          else if e = 't' then some '\t'
          else if e = 'r' then some '\r'
          else if e = 'b' then some (Char.ofNat 8)
          else if e = 'f' then some (Char.ofNat 12)
          else none
        match ec with
        | none => none
        | some ch =>
          match parseStrChars cs2 with
          | none => none
          | some (out, rest) => some (ch :: out, rest)
    else
      match parseStrChars cs with
      | none => none
      | some (out, rest) => some (c :: out, rest)

/-- Split a leading run of decimal digits from the input. -/
def takeDigits : List Char → (List Char × List Char)
  | [] => ([], [])
  | c :: cs =>
    if c.isDigit then
      let (ds, rest) := takeDigits cs
      (c :: ds, rest)
    else ([], c :: cs)

/-- Numeric value of a digit run. -/
def digitsToNat (ds : List Char) : Nat :=
  ds.foldl (fun acc c => acc * 10 + (c.toNat - 48)) 0

/-- Parse an integer literal with optional leading minus sign (fractional
and exponent forms are outside the model and rejected). -/
def parseNumber (l : List Char) : Option (Int × List Char) :=
  let (neg, l1) := match l with
    | '-' :: rest => (true, rest)
    | _ => (false, l)
  match takeDigits l1 with
  | ([], _) => none
  | (ds, rest) =>
    let v : Int := Int.ofNat (digitsToNat ds)
    let v := if neg then -v else v
    match rest with
    | [] => some (v, [])
    | c :: _ => if c = '.' ∨ c = 'e' ∨ c = 'E' then none else some (v, rest)

mutual

/-- Parse one JSON value. -/
def parseValue : Nat → List Char → Option (Json × List Char)
  | 0, _ => none
  | Nat.succ fuel, l =>
    match skipWs l with
    | [] => none
    | c :: cs =>
      if c = 'n' then
        match cs with
        | 'u' :: 'l' :: 'l' :: rest => some (Json.null, rest)
        | _ => none
      else if c = 't' then
        match cs with
        | 'r' :: 'u' :: 'e' :: rest => some (Json.bool true, rest)
        | _ => none
      else if c = 'f' then
        match cs with
        | 'a' :: 'l' :: 's' :: 'e' :: rest => some (Json.bool false, rest)
        | _ => none
      else if c = '"' then
        match parseStrChars cs with
        | none => none
        | some (out, rest) => some (Json.str (String.mk out), rest)
      else if c = '[' then
        match skipWs cs with
        | ']' :: rest2 => some (Json.arr [], rest2)
        | l2 =>
          match parseElems fuel l2 with
          | none => none
          | some (vs, rest2) => some (Json.arr vs, rest2)
      else if c = lbrace then
        let l2 := skipWs cs
        if l2.head? = some rbrace then some (Json.obj [], l2.tail)
        else
          match parseMembers fuel l2 with
          | none => none
          | some (ms, rest2) => some (Json.obj ms, rest2)
      else
        match parseNumber (c :: cs) with
        | none => none
        | some (n, rest) => some (Json.num n, rest)

/-- Parse the comma-separated elements of a non-empty array, up to and
including the closing bracket. -/
def parseElems : Nat → List Char → Option (List Json × List Char)
  | 0, _ => none
  | Nat.succ fuel, l =>
    match parseValue fuel l with
    | none => none
    | some (v, rest) =>
      match skipWs rest with
      | ',' :: rest2 =>
        match parseElems fuel rest2 with
        | none => none
        | some (vs, rest3) => some (v :: vs, rest3)
      | ']' :: rest2 => some ([v], rest2)
      | _ => none

/-- Parse the comma-separated members of a non-empty object, up to and
including the closing brace. -/
def parseMembers : Nat → List Char → Option (List (String × Json) × List Char)
  | 0, _ => none
  | Nat.succ fuel, l =>
    match skipWs l with
    | '"' :: rest =>
      match parseStrChars rest with
      | none => none
      | some (key, rest2) =>
        match skipWs rest2 with
        | ':' :: rest3 =>
          match parseValue fuel rest3 with
          | none => none
          | some (v, rest4) =>
            match skipWs rest4 with
            | ',' :: rest5 =>
              match parseMembers fuel rest5 with
              | none => none
              | some (ms, rest6) => some ((String.mk key, v) :: ms, rest6)
            | c :: rest5 =>
              if c = rbrace then some ([(String.mk key, v)], rest5) else none
            | [] => none
        | _ => none
    | _ => none

end

/-- Model of `JSON.parse`: `none` models a thrown SyntaxError. -/
def parseJson (s : String) : Option Json :=
  match parseValue (s.length + 2) s.data with
  | none => none
  | some (v, rest) => if skipWs rest = [] then some v else none

/-- Model of the `useState` initializer for `tasks` (App.js lines 47-57):
the stored entry is `none` when absent; a missing or empty entry yields
the empty array, a parse failure is caught and yields the empty array,
and any successfully parsed value is returned as-is. -/
def jsLoad (item : Option String) : Json :=
  match item with
  | none => Json.arr []
  | some raw =>
    if raw = "" then Json.arr []
    else
      match parseJson raw with
      | none => Json.arr []
      | some v => v

/-- Modelled from the spec: section 6 describes the durable storage record
as a serialized array of objects with fields id (string), text (string),
completed (boolean); this predicate recognises a JSON value of exactly
that shape.  It is used only to state which contents count as a
well-formed serialized array of Task objects. -/
def isTaskObj : Json → Bool
  | Json.obj [(k1, Json.str _), (k2, Json.str _), (k3, Json.bool _)] =>
    k1 == "id" && k2 == "text" && k3 == "completed"
  | _ => false

/-- Modelled from the spec: a well-formed serialized array of Task
objects. -/
def isTaskArrayJson : Json → Bool
  | Json.arr xs => xs.all isTaskObj
  | _ => false

/-- Claim C2 counterexample: the stored content `true` is well-formed JSON
but not a serialized array of Task objects, yet load returns the parsed
value `true`, not the empty sequence. -/
theorem load_returns_nonarray_content :
    parseJson "true" = some (Json.bool true) ∧
    isTaskArrayJson (Json.bool true) = false ∧
    jsLoad (some "true") = Json.bool true ∧
    jsLoad (some "true") ≠ Json.arr [] := by
  refine ⟨rfl, rfl, rfl, ?_⟩
  have hv : jsLoad (some "true") = Json.bool true := rfl
  rw [hv]
  intro h
  exact Json.noConfusion h

/-- Claim C2 amended: load returns the empty sequence when the entry is
missing, empty, or fails to parse as JSON (a fault is never propagated);
content that parses successfully is returned as-is, even when it is not
an array of Task objects. -/
theorem load_fail_soft_parse_failures :
    jsLoad none = Json.arr [] ∧
    jsLoad (some "") = Json.arr [] ∧
    (∀ raw : String, parseJson raw = none → jsLoad (some raw) = Json.arr []) ∧
    (∀ (raw : String) (v : Json), parseJson raw = some v → jsLoad (some raw) = v) := by
  refine ⟨rfl, rfl, ?_, ?_⟩
  · intro raw h
    by_cases he : raw = ""
    · subst he; rfl
    · simp [jsLoad, he, h]
  · intro raw v h
    by_cases he : raw = ""
    · subst he
      rw [show parseJson "" = none from rfl] at h
      exact Option.noConfusion h
    · simp [jsLoad, he, h]

/-- Concrete instantiation of `load_fail_soft_parse_failures`: corrupt
records degrade to the empty collection, a valid empty array round-trips. -/
theorem load_fail_soft_parse_failures_witness :
    jsLoad (some "[") = Json.arr [] ∧
    jsLoad (some "not json") = Json.arr [] ∧
    jsLoad (some "[]") = Json.arr [] :=
  ⟨load_fail_soft_parse_failures.2.2.1 "[" rfl,
   load_fail_soft_parse_failures.2.2.1 "not json" rfl,
   load_fail_soft_parse_failures.2.2.2 "[]" (Json.arr []) rfl⟩

end TodoApp
